import Mathlib

/-!
Verification of the tensor shape alignment and broadcast-dispatch engine
(`Source/Math/TensorView.cpp`).

The program reinterprets dense (row, column) storage objects as tensors and
aligns N participant shapes for an elementwise/reduction kernel: pad to a
common rank, derive the operation shape `opDims` as the per-axis maximum,
check broadcast compatibility, flatten contiguous axes, drop universal
singleton axes, and set broadcast strides.

`TensorView.cpp` is embedded directly.  The `TensorShape` member functions it
calls (`Pad`, `CanFlatten`, `Flatten`, `DropSingletonDims`,
`WithBroadcastStrides`, the dense-stride constructor) live in a header that is
not part of the given sources; those are modelled from the specification and
carry a `Modelled from the spec:` doc comment.
-/

namespace CNTK

/-- A tensor shape: per-axis extents (`dims`) and per-axis memory strides
(`strides`), as held by the C++ `TensorShape`. -/
structure TensorShape where
  dims : List Nat
  strides : List Nat
deriving DecidableEq, Repr

/-- Extent of shape `s` at axis `k` (C++ `shapes[i][k]`); axes are always
accessed in range by the source, the default `1` is never reached there. -/
def extAt (s : TensorShape) (k : Nat) : Nat := s.dims.getD k 1

/-- Stride of shape `s` at axis `k`. -/
def strAt (s : TensorShape) (k : Nat) : Nat := s.strides.getD k 0

/-- Product of a list of extents, as the C++ loops compute it
(`x = 1; for ... x *= dims[i];`). -/
def extProd (l : List Nat) : Nat := l.foldl (· * ·) 1

/-- Modelled from the spec: the dense column-major strides a `TensorShape`
constructed from a literal list of extents carries — the stride of axis `k`
is the product of the extents of axes `0..k`. -/
def denseStrides (dims : List Nat) : List Nat :=
  (List.range dims.length).map fun k => extProd (dims.take k)

/-- Build the `TensorShape` for a literal list of extents. -/
def ofDims (dims : List Nat) : TensorShape := ⟨dims, denseStrides dims⟩

/-- Modelled from the spec: `Pad(targetRank)` appends unit (extent 1) axes at
the high-index end until the rank reaches `n`; the appended axes stay
memory-contiguous (the spec leaves their stride semantically irrelevant since
an extent-1 axis never advances the address). -/
def pad (s : TensorShape) (n : Nat) : TensorShape :=
  let padStride :=
    match s.dims.getLast?, s.strides.getLast? with
    | some d, some t => t * d
    | _, _ => 1
  ⟨s.dims ++ List.replicate (n - s.dims.length) 1,
   s.strides ++ List.replicate (n - s.dims.length) padStride⟩

/-- Modelled from the spec: `CanFlatten(k)` holds when storage is contiguous
across axes `k-1` and `k`: the coarser axis's stride equals the finer axis's
stride times the finer axis's extent. -/
def canFlatten (s : TensorShape) (k : Nat) : Bool :=
  strAt s k == strAt s (k - 1) * extAt s (k - 1)

/-- Modelled from the spec: `Flatten(k)` on a plain extent vector merges axes
`k-1` and `k`: position `k` receives the product and position `k-1` is left
as a unit axis (removed later by the singleton drop). -/
def flattenDims (l : List Nat) (k : Nat) : List Nat :=
  (l.set k (l.getD (k - 1) 1 * l.getD k 1)).set (k - 1) 1

/-- Modelled from the spec: `Flatten(k)` on a shape — extents merged as in
`flattenDims`, the merged axis keeping the finer axis's stride. -/
def flattenShape (s : TensorShape) (k : Nat) : TensorShape :=
  ⟨flattenDims s.dims k, s.strides.set k (strAt s (k - 1))⟩

/-- Modelled from the spec: `DropSingletonDims(toDrop)` removes the axes whose
mask entry is `true`, keeping all others in order. -/
def dropDims {α : Type} : List α → List Bool → List α
  | [], _ => []
  | l, [] => l
  | a :: l, b :: m => if b then dropDims l m else a :: dropDims l m

/-- Apply the drop mask to both the extents and the strides of a shape. -/
def dropShape (s : TensorShape) (mask : List Bool) : TensorShape :=
  ⟨dropDims s.dims mask, dropDims s.strides mask⟩

/-- Modelled from the spec: `WithBroadcastStrides` forces the stride of every
extent-1 axis to 0; axes of extent > 1 keep their physically derived stride. -/
def withBroadcastStrides (s : TensorShape) : TensorShape :=
  ⟨s.dims, (List.range s.strides.length).map fun k =>
      if extAt s k == 1 then 0 else strAt s k⟩

/-! ### View construction (`TensorView.cpp` lines 35-52)

The reshaping constructor checks that the declared extents factor the storage
object's physical (rows, columns) extents: a greedy loop multiplies leading
extents while the accumulated row extent is still below the storage's row
count, the remaining extents must multiply to the column count. -/

/-- The greedy row loop of the reshaping constructor:
`for (i = 0; i < size && rowDim < rows; i++) rowDim *= dims[i];`.
Returns the final `rowDim` and the unconsumed extents. -/
def rowScan (rows : Nat) : Nat → List Nat → Nat × List Nat
  | rowDim, [] => (rowDim, [])
  | rowDim, d :: ds =>
    if rowDim < rows then rowScan rows (rowDim * d) ds else (rowDim, d :: ds)

/-- The whole dimension check of the reshaping constructor: the greedy row
product must hit `rows` exactly and the remaining extents must multiply to
`cols`. -/
def viewReshapeOk (dims : List Nat) (rows cols : Nat) : Bool :=
  let p := rowScan rows 1 dims
  p.1 == rows && extProd p.2 == cols

/-- The diagnostics the factorization failure carries: the attempted shape and
the storage object's physical extents. -/
structure StorageFactorizationError where
  shape : List Nat
  rows : Nat
  cols : Nat
deriving DecidableEq, Repr

/-- Reinterpreting a view over storage of physical extents `(rows, cols)` with
a new list of declared extents: on success the new shape (with its dense
strides) is produced, otherwise the fatal factorization error. -/
def reinterpretView (rows cols : Nat) (dims : List Nat) :
    Except StorageFactorizationError TensorShape :=
  if viewReshapeOk dims rows cols then .ok (ofDims dims)
  else .error ⟨dims, rows, cols⟩

/-! ### The aligner (`DoBinaryOpOf`, `TensorView.cpp` lines 60-168) -/

/-- Do two extents match (`TensorView.cpp` line 58)?  Either may broadcast. -/
def Matches (d1 d2 : Nat) : Bool := d1 == 1 || d2 == 1 || d1 == d2

/-- The common rank: maximum number of axes over the participants
(lines 78-81). -/
def commonRank (shapes : List TensorShape) : Nat :=
  shapes.foldl (fun d s => max d s.dims.length) 0

/-- Operation extent at axis `k`: maximum over the participants' extents
(lines 86-89, fold starting at 0). -/
def opDimsAt (shapes : List TensorShape) (k : Nat) : Nat :=
  shapes.foldl (fun m s => max m (extAt s k)) 0

/-- The full operation-shape vector over a given rank. -/
def opDimsList (shapes : List TensorShape) (rank : Nat) : List Nat :=
  (List.range rank).map fun k => opDimsAt shapes k

/-- The diagnostics a dimension-compatibility failure carries (line 96): the
offending axis, the offending participant's extents, and the attempted
operation shape. -/
structure ShapeMismatch where
  axis : Nat
  offending : List Nat
  opShape : List Nat
deriving DecidableEq, Repr

/-- The compatibility scan (lines 93-96): axes outermost, participants in
order; the first participant whose extent fails `Matches` against the
operation extent yields the error. -/
def checkCompat (shapes : List TensorShape) (op : List Nat) (rank : Nat) :
    Option ShapeMismatch :=
  (List.range rank).findSome? fun k =>
    (shapes.find? fun s => !Matches (extAt s k) (op.getD k 0)).map
      fun s => ⟨k, s.dims, op⟩

/-- The condition under which the flatten loop skips the merge of axes `k-1`
and `k` for one participant (line 110): the pair is neither exactly the
operation extents at both positions nor all-broadcasting (1 at both). -/
def mergeSkip (s : TensorShape) (op : List Nat) (k : Nat) : Bool :=
  ((extAt s k != op.getD k 0) || (extAt s (k - 1) != op.getD (k - 1) 0)) &&
    ((extAt s k != 1) || (extAt s (k - 1) != 1))

/-- Axes `k-1` and `k` merge only when every participant is contiguous there
and has uniform broadcast status (lines 104-112). -/
def canMergeAll (shapes : List TensorShape) (op : List Nat) (k : Nat) : Bool :=
  shapes.all fun s => canFlatten s k && !mergeSkip s op k

/-- One step of the flatten loop at axis `k` (lines 102-118): when the merge
is allowed it is applied to every participant and to the operation shape
simultaneously, otherwise nothing changes. -/
def flattenStep (st : List TensorShape × List Nat) (k : Nat) :
    List TensorShape × List Nat :=
  if canMergeAll st.1 st.2 k then
    (st.1.map fun s => flattenShape s k, flattenDims st.2 k)
  else st

/-- The full flatten pass: axes scanned greedily from low index upward
(`for (size_t k = 1; k < dims; k++)`). -/
def flattenAll (shapes : List TensorShape) (op : List Nat) (rank : Nat) :
    List TensorShape × List Nat :=
  ((List.range rank).drop 1).foldl flattenStep (shapes, op)

/-- The drop mask (lines 122-130): axis `k` is dropped when every participant
has extent exactly 1 there. -/
def toDropMask (shapes : List TensorShape) (rank : Nat) : List Bool :=
  (List.range rank).map fun k => shapes.all fun s => extAt s k == 1

/-- The aligner's successful output: the aligned participant shapes (broadcast
strides applied) and the final operation shape. -/
structure AlignResult where
  shapes : List TensorShape
  opDims : List Nat
deriving DecidableEq, Repr

/-- All participants padded to the common rank (lines 82-83). -/
def paddedShapes (inputs : List TensorShape) : List TensorShape :=
  inputs.map fun s => pad s (commonRank inputs)

/-- The operation shape the aligner derives from the padded participants. -/
def opList (inputs : List TensorShape) : List Nat :=
  opDimsList (paddedShapes inputs) (commonRank inputs)

/-- The participants and operation shape after the flatten pass. -/
def flattenedStage (inputs : List TensorShape) : List TensorShape × List Nat :=
  flattenAll (paddedShapes inputs) (opList inputs) (commonRank inputs)

/-- The participant shapes after flatten and singleton drop, before broadcast
strides. -/
def alignedShapes (inputs : List TensorShape) : List TensorShape :=
  (flattenedStage inputs).1.map fun s =>
    dropShape s (toDropMask (flattenedStage inputs).1 (commonRank inputs))

/-- The final operation shape after flatten and singleton drop. -/
def alignedOpDims (inputs : List TensorShape) : List Nat :=
  dropDims (flattenedStage inputs).2
    (toDropMask (flattenedStage inputs).1 (commonRank inputs))

/-- The shape pipeline of `DoBinaryOpOf` (lines 60-168), generalized to N
participants as the spec directs: pad, derive `opDims`, compatibility check
(fail fast), flatten, drop universal singletons, set broadcast strides. -/
def align (inputs : List TensorShape) : Except ShapeMismatch AlignResult :=
  match checkCompat (paddedShapes inputs) (opList inputs) (commonRank inputs) with
  | some e => .error e
  | none => .ok ⟨(alignedShapes inputs).map withBroadcastStrides,
                 alignedOpDims inputs⟩

/-! ### Views and the binary-op entry point -/

/-- A `TensorView`: a shape bound to a storage object, of which the engine
only reads the two physical extents. -/
structure TensorView where
  sobRows : Nat
  sobCols : Nat
  m_shape : TensorShape
deriving DecidableEq, Repr

/-- Read accessor for a view's shape (the only view access `DoBinaryOpOf`
performs, copied into a local array). -/
def GetShape (v : TensorView) : TensorShape := v.m_shape

/-- The mutable state visible to one `DoBinaryOpOf` call: the output view
(`*this`) and the two input views. -/
structure BinOpState where
  outV : TensorView
  inA : TensorView
  inB : TensorView
deriving DecidableEq, Repr

/-- The function `DoBinaryOpOf` as a state transformer: the body only copies the three
shapes into locals (`shapes[0] = a.GetShape(); ...`) and reassigns those
locals, so the view state threads through to the result unchanged. -/
def doBinaryOpOf (st : BinOpState) :
    BinOpState × Except ShapeMismatch AlignResult :=
  let shapes := [GetShape st.inA, GetShape st.inB, GetShape st.outV]
  (st, align shapes)

/-! ### The self-test configuration (`Test`, lines 172-185) -/

/-- Declared shape of the first input of the self-test: `(1, 2, 21)`. -/
def testS1 : List Nat := [1, 2, 21]

/-- Declared shape of the second input of the self-test: `(13, 1)`. -/
def testS2 : List Nat := [13, 1]

/-- Declared shape of the output of the self-test: `(13, 1, 21)`. -/
def testS3 : List Nat := [13, 1, 21]

end CNTK

namespace CNTK

/-! ### Basic product lemmas -/

theorem extProd_eq_prod (l : List Nat) : extProd l = l.prod := by
  have h : ∀ (l : List Nat) (r : Nat), l.foldl (· * ·) r = r * l.prod := by
    intro l
    induction l with
    | nil => intro r; simp
    | cons a t ih =>
      intro r
      simp only [List.foldl_cons, List.prod_cons, ih]
      ring
  simpa [extProd] using h l 1

theorem one_le_prod_of_one_le {l : List Nat} (h : ∀ d ∈ l, 1 ≤ d) :
    1 ≤ l.prod := by
  induction l with
  | nil => simp
  | cons a t ih =>
    simp only [List.prod_cons]
    have ha : 1 ≤ a := h a (List.mem_cons_self a t)
    have ht : 1 ≤ t.prod := ih fun d hd => h d (List.mem_cons_of_mem a hd)
    calc 1 = 1 * 1 := by ring
    _ ≤ a * t.prod := Nat.mul_le_mul ha ht

/-! ### The greedy factorization scan -/

theorem rowScan_eq_split (rows : Nat) (r : Nat) (ds : List Nat) :
    ∃ j, rowScan rows r ds = (r * (ds.take j).prod, ds.drop j) := by
  induction ds generalizing r with
  | nil => exact ⟨0, by simp [rowScan]⟩
  | cons d t ih =>
    by_cases h : r < rows
    · obtain ⟨j, hj⟩ := ih (r * d)
      refine ⟨j + 1, ?_⟩
      simp only [rowScan, if_pos h, hj, List.take_succ_cons, List.prod_cons,
        List.drop_succ_cons]
      ring_nf
    · exact ⟨0, by simp [rowScan, if_neg h]⟩

theorem rowScan_complete (rows cols : Nat) (ds : List Nat) (r : Nat)
    (hr : 1 ≤ r) (hpos : ∀ d ∈ ds, 1 ≤ d) (i : Nat)
    (hi : r * (ds.take i).prod = rows) (hc : (ds.drop i).prod = cols) :
    (rowScan rows r ds).1 = rows ∧ ((rowScan rows r ds).2).prod = cols := by
  induction ds generalizing r i with
  | nil =>
    simp only [List.take_nil, List.prod_nil, Nat.mul_one] at hi
    simp only [List.drop_nil, List.prod_nil] at hc
    simp [rowScan, hi, hc]
  | cons d t ih =>
    have hd : 1 ≤ d := hpos d (List.mem_cons_self d t)
    have hpt : ∀ x ∈ t, 1 ≤ x := fun x hx => hpos x (List.mem_cons_of_mem d hx)
    cases i with
    | zero =>
      simp only [List.take_zero, List.prod_nil, Nat.mul_one] at hi
      simp only [List.drop_zero] at hc
      have hnot : ¬ r < rows := by omega
      simp [rowScan, if_neg hnot, hi, hc]
    | succ j =>
      simp only [List.take_succ_cons, List.prod_cons, List.drop_succ_cons] at hi hc
      by_cases h : r < rows
      · have hrd : 1 ≤ r * d := Nat.one_le_iff_ne_zero.2 (Nat.mul_ne_zero (by omega) (by omega))
        have hi' : (r * d) * (t.take j).prod = rows := by rw [← hi]; ring
        simpa [rowScan, if_pos h] using ih (r * d) hrd hpt j hi' hc
      · have htp : 1 ≤ (t.take j).prod :=
          one_le_prod_of_one_le fun x hx => hpt x (List.mem_of_mem_take hx)
        have hge : r ≤ rows := by
          calc r = r * 1 := by ring
          _ ≤ r * (d * (t.take j).prod) := by
            exact Nat.mul_le_mul_left r (Nat.one_le_iff_ne_zero.2 (by positivity))
          _ = rows := hi
        have hrr : r = rows := by omega
        have hone : d * (t.take j).prod = 1 := by
          have : r * (d * (t.take j).prod) = r * 1 := by rw [hi, hrr]; ring
          exact Nat.eq_of_mul_eq_mul_left (by omega) this
        have hd1 : d = 1 := by
          have hle : d ≤ d * (t.take j).prod := Nat.le_mul_of_pos_right d (by omega)
          rw [hone] at hle
          omega
        have htp1 : (t.take j).prod = 1 := by
          rw [hd1, Nat.one_mul] at hone
          exact hone
        have htc : t.prod = cols := by
          rw [← List.prod_take_mul_prod_drop t j, htp1, hc]; ring
        simp [rowScan, if_neg h, hrr, List.prod_cons, hd1, htc]

theorem viewReshapeOk_iff (dims : List Nat) (rows cols : Nat)
    (hpos : ∀ d ∈ dims, 1 ≤ d) :
    viewReshapeOk dims rows cols = true ↔
      ∃ i, i ≤ dims.length ∧ (dims.take i).prod = rows ∧
        (dims.drop i).prod = cols := by
  constructor
  · intro h
    obtain ⟨j, hj⟩ := rowScan_eq_split rows 1 dims
    simp only [viewReshapeOk, hj, Nat.one_mul, Bool.and_eq_true, beq_iff_eq,
      extProd_eq_prod] at h
    by_cases hjl : j ≤ dims.length
    · exact ⟨j, hjl, h.1, h.2⟩
    · refine ⟨dims.length, Nat.le_refl _, ?_, ?_⟩
      · rw [List.take_length, ← List.take_of_length_le (l := dims) (i := j) (by omega)]
        exact h.1
      · rw [List.drop_length, ← List.drop_of_length_le (l := dims) (i := j) (by omega)]
        exact h.2
  · rintro ⟨i, _, hr, hc⟩
    obtain ⟨h1, h2⟩ := rowScan_complete rows cols dims 1 (Nat.le_refl 1) hpos i
      (by simpa using hr) hc
    simp [viewReshapeOk, extProd_eq_prod, h1, h2]

/-- C1: reinterpreting a View with a new Shape succeeds if and only if (all
declared extents being at least 1) some split point `i` makes the product of
`dims[0..i)` equal the storage's physical row extent and the product of
`dims[i..end)` its physical column extent; with no such split, construction
fails with the fatal `StorageFactorizationError` and no View is produced. -/
theorem view_reinterpret_iff_factorization (rows cols : Nat) (dims : List Nat)
    (hpos : ∀ d ∈ dims, 1 ≤ d) :
    ((∃ v, reinterpretView rows cols dims = .ok v) ↔
      ∃ i, i ≤ dims.length ∧ (dims.take i).prod = rows ∧
        (dims.drop i).prod = cols)
    ∧ ((¬ ∃ i, i ≤ dims.length ∧ (dims.take i).prod = rows ∧
          (dims.drop i).prod = cols) →
        reinterpretView rows cols dims = .error ⟨dims, rows, cols⟩) := by
  constructor
  · rw [← viewReshapeOk_iff dims rows cols hpos]
    constructor
    · rintro ⟨v, hv⟩
      by_contra hfalse
      simp only [reinterpretView, Bool.not_eq_true] at hv hfalse
      rw [if_neg (by simp [hfalse])] at hv
      exact Except.noConfusion hv
    · intro h
      exact ⟨ofDims dims, by simp [reinterpretView, h]⟩
  · intro h
    rw [← viewReshapeOk_iff dims rows cols hpos] at h
    simp only [reinterpretView, Bool.not_eq_true] at h ⊢
    rw [if_neg (by simp [h])]

/-- Witness for C1: the self-test's first view, shape `(1, 2, 21)` over
storage extents `(1, 42)`, factors at split point 1. -/
theorem view_reinterpret_iff_factorization_witness :
    (∀ d ∈ [1, 2, 21], 1 ≤ d) ∧
      ∃ v, reinterpretView 1 42 [1, 2, 21] = .ok v :=
  ⟨by decide,
   (view_reinterpret_iff_factorization 1 42 [1, 2, 21] (by decide)).1.mpr
     ⟨1, by decide, by decide, by decide⟩⟩

end CNTK

namespace CNTK

/-! ### Max-fold lemmas for the operation shape -/

theorem foldl_max_init_le {α : Type} (g : α → Nat) (l : List α) (b : Nat) :
    b ≤ l.foldl (fun m x => max m (g x)) b := by
  induction l generalizing b with
  | nil => simp
  | cons a t ih =>
    exact le_trans (Nat.le_max_left b (g a)) (ih (max b (g a)))

theorem le_foldl_max_of_mem {α : Type} (g : α → Nat) {l : List α} {s : α}
    (h : s ∈ l) (b : Nat) : g s ≤ l.foldl (fun m x => max m (g x)) b := by
  induction l generalizing b with
  | nil => cases h
  | cons a t ih =>
    rcases List.mem_cons.1 h with rfl | h'
    · exact le_trans (Nat.le_max_right b (g s)) (foldl_max_init_le g t _)
    · exact ih h' _

theorem foldl_max_attained {α : Type} (g : α → Nat) (l : List α) (b : Nat) :
    l.foldl (fun m x => max m (g x)) b = b ∨
      ∃ s ∈ l, l.foldl (fun m x => max m (g x)) b = g s := by
  induction l generalizing b with
  | nil => left; rfl
  | cons a t ih =>
    rcases ih (max b (g a)) with h | ⟨s, hs, h⟩
    · rcases Nat.le_total b (g a) with hba | hba
      · right
        exact ⟨a, List.mem_cons_self a t, by simpa [Nat.max_eq_right hba] using h⟩
      · left; simpa [Nat.max_eq_left hba] using h
    · right; exact ⟨s, List.mem_cons_of_mem a hs, by simpa using h⟩

theorem opDimsList_getD (shapes : List TensorShape) (rank k : Nat)
    (hk : k < rank) :
    (opDimsList shapes rank).getD k 0 = opDimsAt shapes k := by
  simp [opDimsList, List.getD_eq_getElem?_getD, List.getElem?_map,
    List.getElem?_range hk]

theorem extAt_le_opDimsAt {shapes : List TensorShape} {s : TensorShape}
    (h : s ∈ shapes) (k : Nat) : extAt s k ≤ opDimsAt shapes k :=
  le_foldl_max_of_mem (fun s => extAt s k) h 0

theorem getD_mem_or_default {α : Type} (l : List α) (k : Nat) (d : α) :
    l.getD k d ∈ l ∨ l.getD k d = d := by
  induction l generalizing k with
  | nil => right; simp
  | cons a t ih =>
    cases k with
    | zero => left; simp
    | succ n =>
      rcases ih n with h | h
      · left; simp only [List.getD_cons_succ]; exact List.mem_cons_of_mem a h
      · right; simpa using h

theorem extAt_pos {s : TensorShape} (h : ∀ d ∈ s.dims, 1 ≤ d) (k : Nat) :
    1 ≤ extAt s k := by
  rcases getD_mem_or_default s.dims k 1 with hm | hd
  · exact h _ hm
  · have h1 : extAt s k = 1 := hd
    omega

/-- C3: after padding all participants to the common rank, the operation
extent at every axis `k` equals the maximum over all participants of their
extent at `k`: it dominates every participant and is attained by one. -/
theorem op_dims_is_max (inputs : List TensorShape) (k : Nat)
    (hk : k < commonRank inputs) (hne : inputs ≠ []) :
    (∀ s ∈ paddedShapes inputs, extAt s k ≤ (opList inputs).getD k 0)
    ∧ ∃ s ∈ paddedShapes inputs, (opList inputs).getD k 0 = extAt s k := by
  have hop : (opList inputs).getD k 0 = opDimsAt (paddedShapes inputs) k :=
    opDimsList_getD _ _ _ hk
  constructor
  · intro s hs
    rw [hop]
    exact extAt_le_opDimsAt hs k
  · rcases foldl_max_attained (fun s => extAt s k) (paddedShapes inputs) 0 with
      h0 | ⟨s, hs, h⟩
    · obtain ⟨s0, t, ht⟩ : ∃ s0 t, inputs = s0 :: t := by
        cases inputs with
        | nil => exact absurd rfl hne
        | cons a t => exact ⟨a, t, rfl⟩
      have hs0 : pad s0 (commonRank inputs) ∈ paddedShapes inputs := by
        rw [ht]; simp [paddedShapes]
      have hle : extAt (pad s0 (commonRank inputs)) k ≤ 0 := by
        have := extAt_le_opDimsAt hs0 k
        simpa [opDimsAt, h0] using this
      refine ⟨pad s0 (commonRank inputs), hs0, ?_⟩
      rw [hop]
      simp only [opDimsAt, h0]
      omega
    · exact ⟨s, hs, by rw [hop]; exact h⟩

/-- Witness for C3: two rank-1 participants with extents 2 and 3; the
operation extent at axis 0 dominates both and is attained. -/
theorem op_dims_is_max_witness :
    (∀ s ∈ paddedShapes [ofDims [2], ofDims [3]],
        extAt s 0 ≤ (opList [ofDims [2], ofDims [3]]).getD 0 0)
    ∧ ∃ s ∈ paddedShapes [ofDims [2], ofDims [3]],
        (opList [ofDims [2], ofDims [3]]).getD 0 0 = extAt s 0 :=
  op_dims_is_max [ofDims [2], ofDims [3]] 0 (by decide) (by decide)

/-- Modelled from the spec: the asymmetric compatibility condition the spec
states — the participant's extent is 1 (broadcast) or equals the operation
extent. -/
def matchesAsym (d opk : Nat) : Bool := d == 1 || d == opk

/-- C10: over extents that are all at least 1, the symmetric `Matches` test
the code runs against the derived operation extent accepts exactly what the
spec's asymmetric condition accepts, because the operation extent is the
participants' maximum, so its extra `opDims[k] == 1` disjunct never admits
anything new. -/
theorem matches_refines_asym (shapes : List TensorShape) (s : TensorShape)
    (hs : s ∈ shapes) (k : Nat) (hpos : ∀ d ∈ s.dims, 1 ≤ d) :
    Matches (extAt s k) (opDimsAt shapes k) =
      matchesAsym (extAt s k) (opDimsAt shapes k) := by
  have hd : 1 ≤ extAt s k := extAt_pos hpos k
  have hdm : extAt s k ≤ opDimsAt shapes k := extAt_le_opDimsAt hs k
  by_cases hm : opDimsAt shapes k = 1
  · have : extAt s k = 1 := by omega
    simp [Matches, matchesAsym, this]
  · have hm' : (opDimsAt shapes k == 1) = false := beq_eq_false_iff_ne.mpr hm
    simp [Matches, matchesAsym, hm']

/-- Witness for C10: the symmetric and asymmetric tests agree for the first
self-test participant against the operation extent at axis 0. -/
theorem matches_refines_asym_witness :
    Matches (extAt (ofDims [1, 2, 21]) 0)
        (opDimsAt [ofDims [1, 2, 21], ofDims [13, 1]] 0) =
      matchesAsym (extAt (ofDims [1, 2, 21]) 0)
        (opDimsAt [ofDims [1, 2, 21], ofDims [13, 1]] 0) :=
  matches_refines_asym [ofDims [1, 2, 21], ofDims [13, 1]] (ofDims [1, 2, 21])
    (by decide) 0 (by decide)

/-- C9: the binary-op alignment has no side effect on the participating
views: the state (the output view and both input views, each with its shape
and storage binding) after the call equals the state before it; the body
works on local copies of the three shapes only. -/
theorem binary_op_no_side_effects (st : BinOpState) :
    (doBinaryOpOf st).1.outV.m_shape = st.outV.m_shape ∧
    (doBinaryOpOf st).1.inA.m_shape = st.inA.m_shape ∧
    (doBinaryOpOf st).1.inB.m_shape = st.inB.m_shape ∧
    (doBinaryOpOf st).1.outV.sobRows = st.outV.sobRows ∧
    (doBinaryOpOf st).1.outV.sobCols = st.outV.sobCols ∧
    (doBinaryOpOf st).1.inA.sobRows = st.inA.sobRows ∧
    (doBinaryOpOf st).1.inA.sobCols = st.inA.sobCols ∧
    (doBinaryOpOf st).1.inB.sobRows = st.inB.sobRows ∧
    (doBinaryOpOf st).1.inB.sobCols = st.inB.sobCols ∧
    (doBinaryOpOf st).1 = st :=
  ⟨rfl, rfl, rfl, rfl, rfl, rfl, rfl, rfl, rfl, rfl⟩

end CNTK

namespace CNTK

/-! ### The compatibility check and C2 -/

theorem pad_dims (s : TensorShape) (n : Nat) :
    (pad s n).dims = s.dims ++ List.replicate (n - s.dims.length) 1 := rfl

theorem paddedShapes_pos {inputs : List TensorShape}
    (hpos : ∀ s ∈ inputs, ∀ d ∈ s.dims, 1 ≤ d) :
    ∀ s ∈ paddedShapes inputs, ∀ d ∈ s.dims, 1 ≤ d := by
  intro s hs d hd
  simp only [paddedShapes, List.mem_map] at hs
  obtain ⟨t, ht, rfl⟩ := hs
  rw [pad_dims] at hd
  rcases List.mem_append.1 hd with h | h
  · exact hpos t ht d h
  · have := (List.mem_replicate.1 h).2
    omega

theorem checkCompat_eq_none_iff (shapes : List TensorShape) (op : List Nat)
    (rank : Nat) :
    checkCompat shapes op rank = none ↔
      ∀ k < rank, ∀ s ∈ shapes,
        Matches (extAt s k) (op.getD k 0) = true := by
  simp [checkCompat, List.findSome?_eq_none_iff, Option.map_eq_none',
    List.find?_eq_none]

theorem align_error_iff (inputs : List TensorShape) (e : ShapeMismatch) :
    align inputs = .error e ↔
      checkCompat (paddedShapes inputs) (opList inputs) (commonRank inputs)
        = some e := by
  unfold align
  cases h : checkCompat (paddedShapes inputs) (opList inputs)
      (commonRank inputs) <;> simp

theorem matches_false_iff (inputs : List TensorShape)
    (hpos : ∀ s ∈ inputs, ∀ d ∈ s.dims, 1 ≤ d) (k : Nat)
    (hk : k < commonRank inputs) (s : TensorShape)
    (hs : s ∈ paddedShapes inputs) :
    Matches (extAt s k) ((opList inputs).getD k 0) = false ↔
      extAt s k ≠ 1 ∧ extAt s k ≠ (opList inputs).getD k 0 := by
  have hd : 1 ≤ extAt s k := extAt_pos (paddedShapes_pos hpos s hs) k
  have hop : (opList inputs).getD k 0 = opDimsAt (paddedShapes inputs) k :=
    opDimsList_getD _ _ _ hk
  have hdm : extAt s k ≤ (opList inputs).getD k 0 := by
    rw [hop]; exact extAt_le_opDimsAt hs k
  simp only [Matches, Bool.or_eq_false_iff, beq_eq_false_iff_ne]
  constructor
  · rintro ⟨⟨h1, _⟩, h3⟩
    exact ⟨h1, h3⟩
  · rintro ⟨h1, h3⟩
    refine ⟨⟨h1, ?_⟩, h3⟩
    intro hm1
    rw [hm1] at hdm
    omega

/-- C2: the binary tensor operation raises `ShapeMismatch` exactly when some
participant has, at some axis of the common rank, an extent that is neither 1
nor the operation extent; the raised error names such an axis, the offending
participant's extents, and the attempted operation shape (the error branch
returns before any flattening, dropping or stride assignment). -/
theorem binary_op_mismatch_iff (inputs : List TensorShape)
    (hpos : ∀ s ∈ inputs, ∀ d ∈ s.dims, 1 ≤ d) :
    ((∃ e, align inputs = .error e) ↔
      ∃ k < commonRank inputs, ∃ s ∈ paddedShapes inputs,
        extAt s k ≠ 1 ∧ extAt s k ≠ (opList inputs).getD k 0)
    ∧ ∀ e, align inputs = .error e →
        e.opShape = opList inputs ∧ e.axis < commonRank inputs ∧
        ∃ s ∈ paddedShapes inputs, e.offending = s.dims ∧
          extAt s e.axis ≠ 1 ∧
          extAt s e.axis ≠ (opList inputs).getD e.axis 0 := by
  constructor
  · constructor
    · rintro ⟨e, he⟩
      rw [align_error_iff] at he
      obtain ⟨k, hkmem, hk2⟩ := List.exists_of_findSome?_eq_some he
      have hk : k < commonRank inputs := List.mem_range.1 hkmem
      rw [Option.map_eq_some'] at hk2
      obtain ⟨s, hfind, _⟩ := hk2
      have hs : s ∈ paddedShapes inputs := List.mem_of_find?_eq_some hfind
      have hMf : Matches (extAt s k) ((opList inputs).getD k 0) = false := by
        have := List.find?_some hfind
        simpa using this
      exact ⟨k, hk, s, hs, (matches_false_iff inputs hpos k hk s hs).1 hMf⟩
    · rintro ⟨k, hk, s, hs, hviol⟩
      have hne : checkCompat (paddedShapes inputs) (opList inputs)
          (commonRank inputs) ≠ none := by
        intro hnone
        rw [checkCompat_eq_none_iff] at hnone
        have := hnone k hk s hs
        rw [(matches_false_iff inputs hpos k hk s hs).2 hviol] at this
        exact Bool.noConfusion this
      obtain ⟨e, he⟩ := Option.ne_none_iff_exists'.1 hne
      exact ⟨e, (align_error_iff inputs e).2 he⟩
  · intro e he
    rw [align_error_iff] at he
    obtain ⟨k, hkmem, hk2⟩ := List.exists_of_findSome?_eq_some he
    have hk : k < commonRank inputs := List.mem_range.1 hkmem
    rw [Option.map_eq_some'] at hk2
    obtain ⟨s, hfind, hes⟩ := hk2
    have hs : s ∈ paddedShapes inputs := List.mem_of_find?_eq_some hfind
    have hMf : Matches (extAt s k) ((opList inputs).getD k 0) = false := by
      have := List.find?_some hfind
      simpa using this
    have hviol := (matches_false_iff inputs hpos k hk s hs).1 hMf
    rw [← hes]
    exact ⟨rfl, hk, s, hs, rfl, hviol⟩

/-- Witness for C2: extents 3 and 5 at axis 0 (neither 1) raise the
mismatch. -/
theorem binary_op_mismatch_iff_witness :
    ∃ e, align [ofDims [3], ofDims [5], ofDims [5]] = .error e :=
  (binary_op_mismatch_iff [ofDims [3], ofDims [5], ofDims [5]]
      (by decide)).1.mpr (by decide)

end CNTK

namespace CNTK

/-! ### Flattening (C4) and singleton drop (C5) -/

theorem getD_map_range {α : Type} (f : Nat → α) (n k : Nat) (d : α)
    (hk : k < n) : ((List.range n).map f).getD k d = f k := by
  simp [List.getD_eq_getElem?_getD, List.getElem?_map, List.getElem?_range hk]

theorem mergeOk_iff (s : TensorShape) (op : List Nat) (k : Nat) :
    (canFlatten s k && !mergeSkip s op k) = true ↔
      (strAt s k = strAt s (k - 1) * extAt s (k - 1) ∧
        ((extAt s (k - 1) = op.getD (k - 1) 0 ∧ extAt s k = op.getD k 0) ∨
         (extAt s (k - 1) = 1 ∧ extAt s k = 1))) := by
  simp only [canFlatten, mergeSkip, Bool.and_eq_true, beq_iff_eq,
    Bool.not_eq_true', Bool.and_eq_false_iff, Bool.or_eq_false_iff,
    bne_eq_false_iff_eq]
  tauto

/-- C4: during the greedy flatten scan, adjacent axes `k-1` and `k` merge if
and only if every participant is stored contiguously across the pair and has
matching broadcast status there (both extents equal to the operation extents,
or both equal to 1); on a merge, all participants and the operation shape are
flattened simultaneously, otherwise all are left untouched. -/
theorem flatten_merge_iff (shapes : List TensorShape) (op : List Nat)
    (k : Nat) :
    (canMergeAll shapes op k = true ↔
      ∀ s ∈ shapes,
        strAt s k = strAt s (k - 1) * extAt s (k - 1) ∧
        ((extAt s (k - 1) = op.getD (k - 1) 0 ∧ extAt s k = op.getD k 0) ∨
         (extAt s (k - 1) = 1 ∧ extAt s k = 1)))
    ∧ (canMergeAll shapes op k = true →
        flattenStep (shapes, op) k
          = (shapes.map fun s => flattenShape s k, flattenDims op k))
    ∧ (canMergeAll shapes op k = false →
        flattenStep (shapes, op) k = (shapes, op)) := by
  refine ⟨?_, ?_, ?_⟩
  · rw [canMergeAll, List.all_eq_true]
    exact forall₂_congr fun s _ => mergeOk_iff s op k
  · intro h
    simp [flattenStep, h]
  · intro h
    simp [flattenStep, h]

/-- Witness for C4: a dense `(2, 3)` participant with operation shape
`(2, 3)` merges its two axes. -/
theorem flatten_merge_iff_witness :
    flattenStep ([ofDims [2, 3]], [2, 3]) 1
      = ([ofDims [2, 3]].map fun s => flattenShape s 1, flattenDims [2, 3] 1) :=
  (flatten_merge_iff [ofDims [2, 3]] [2, 3] 1).2.1 (by decide)

theorem toDropMask_getD (shapes : List TensorShape) (rank k : Nat)
    (hk : k < rank) :
    (toDropMask shapes rank).getD k false
      = shapes.all fun s => extAt s k == 1 :=
  getD_map_range _ rank k false hk

theorem dropDims_all_true {α : Type} (l : List α) (mask : List Bool)
    (hlen : l.length ≤ mask.length) (hall : ∀ b ∈ mask, b = true) :
    dropDims l mask = [] := by
  induction l generalizing mask with
  | nil => cases mask <;> rfl
  | cons a t ih =>
    cases mask with
    | nil => simp at hlen
    | cons b m =>
      have hb : b = true := hall b (List.mem_cons_self b m)
      simp only [dropDims, hb, if_pos]
      exact ih m (by simpa using hlen) fun x hx => hall x (List.mem_cons_of_mem b hx)

/-- C5: after flattening, the drop mask marks axis `k` exactly when every
participant (the output included) has extent 1 there; the same mask is applied
simultaneously to every participant and to the operation shape, and when every
axis is marked a participant of rank at most the common rank drops to rank 0
(the fully-scalar case). -/
theorem drop_singleton_axes (inputs : List TensorShape) (k : Nat)
    (hk : k < commonRank inputs) :
    ((toDropMask (flattenedStage inputs).1 (commonRank inputs)).getD k false
        = true ↔ ∀ s ∈ (flattenedStage inputs).1, extAt s k = 1)
    ∧ alignedShapes inputs = (flattenedStage inputs).1.map
        (fun s => dropShape s
          (toDropMask (flattenedStage inputs).1 (commonRank inputs)))
    ∧ alignedOpDims inputs = dropDims (flattenedStage inputs).2
        (toDropMask (flattenedStage inputs).1 (commonRank inputs))
    ∧ ((∀ j, j < commonRank inputs →
          ∀ s ∈ (flattenedStage inputs).1, extAt s j = 1) →
        ∀ s ∈ (flattenedStage inputs).1,
          s.dims.length ≤ commonRank inputs →
          (dropShape s
            (toDropMask (flattenedStage inputs).1 (commonRank inputs))).dims
            = []) := by
  refine ⟨?_, rfl, rfl, ?_⟩
  · rw [toDropMask_getD _ _ _ hk, List.all_eq_true]
    exact forall₂_congr fun s _ => by simp
  · intro hall s hs hlen
    simp only [dropShape]
    apply dropDims_all_true
    · simpa [toDropMask] using hlen
    · intro b hb
      simp only [toDropMask, List.mem_map, List.mem_range] at hb
      obtain ⟨j, hj, rfl⟩ := hb
      rw [List.all_eq_true]
      intro t ht
      simpa using hall j hj t ht

/-- Witness for C5: a single scalar-like participant of shape `(1)`; axis 0
is marked for dropping and the participant drops to rank 0. -/
theorem drop_singleton_axes_witness :
    ((toDropMask (flattenedStage [ofDims [1]]).1
          (commonRank [ofDims [1]])).getD 0 false
        = true ↔ ∀ s ∈ (flattenedStage [ofDims [1]]).1, extAt s 0 = 1)
    ∧ alignedShapes [ofDims [1]] = (flattenedStage [ofDims [1]]).1.map
        (fun s => dropShape s
          (toDropMask (flattenedStage [ofDims [1]]).1 (commonRank [ofDims [1]])))
    ∧ alignedOpDims [ofDims [1]] = dropDims (flattenedStage [ofDims [1]]).2
        (toDropMask (flattenedStage [ofDims [1]]).1 (commonRank [ofDims [1]]))
    ∧ ((∀ j, j < commonRank [ofDims [1]] →
          ∀ s ∈ (flattenedStage [ofDims [1]]).1, extAt s j = 1) →
        ∀ s ∈ (flattenedStage [ofDims [1]]).1,
          s.dims.length ≤ commonRank [ofDims [1]] →
          (dropShape s
            (toDropMask (flattenedStage [ofDims [1]]).1
              (commonRank [ofDims [1]]))).dims = []) :=
  drop_singleton_axes [ofDims [1]] 0 (by decide)

/-- C7: the self-test configuration — declared shapes `(1,2,21)`, `(13,1)`
and output `(13,1,21)` over storages `(1,42)`, `(13,1)`, `(13,21)` — passes
all three factorizations, pads to rank 3, derives `opDims = (13,2,21)`,
passes the compatibility check, and the alignment succeeds with no
`ShapeMismatch`. -/
theorem self_test_scenario :
    viewReshapeOk testS1 1 42 = true ∧
    viewReshapeOk testS2 13 1 = true ∧
    viewReshapeOk testS3 13 21 = true ∧
    commonRank [ofDims testS1, ofDims testS2, ofDims testS3] = 3 ∧
    (paddedShapes [ofDims testS1, ofDims testS2, ofDims testS3]).map
        TensorShape.dims = [[1, 2, 21], [13, 1, 1], [13, 1, 21]] ∧
    opList [ofDims testS1, ofDims testS2, ofDims testS3] = [13, 2, 21] ∧
    checkCompat (paddedShapes [ofDims testS1, ofDims testS2, ofDims testS3])
        (opList [ofDims testS1, ofDims testS2, ofDims testS3]) 3 = none ∧
    ∃ r, align [ofDims testS1, ofDims testS2, ofDims testS3] = .ok r :=
  ⟨by decide, by decide, by decide, by decide, by decide, by decide,
   by decide, ⟨_, rfl⟩⟩

end CNTK

namespace CNTK

/-! ### Broadcast strides (C6) -/

theorem withBroadcastStrides_strAt (s : TensorShape) (j : Nat)
    (hj : j < s.strides.length) :
    strAt (withBroadcastStrides s) j
      = if extAt s j == 1 then 0 else strAt s j := by
  simp only [withBroadcastStrides, strAt]
  exact getD_map_range _ _ j 0 hj

/-- C6: broadcast-stride derivation forces the stride of every remaining
extent-1 axis to 0 and keeps the physical stride of every axis of extent
greater than 1; in particular, when one participant has extent 1 at an axis
where another has extent `m > 1` and the compatibility check passed, the
operation extent at that axis is exactly `m` and the first participant's
derived stride there is 0. -/
theorem broadcast_stride_assignment (shapes : List TensorShape) (op : List Nat)
    (rank k m : Nat) (A B : TensorShape) (_hA : A ∈ shapes) (hB : B ∈ shapes)
    (hop : op = opDimsList shapes rank)
    (hcompat : checkCompat shapes op rank = none)
    (hk : k < rank) (hA1 : extAt A k = 1) (hBm : extAt B k = m) (hm : 1 < m) :
    op.getD k 0 = m ∧ strAt (withBroadcastStrides A) k = 0 ∧
    (∀ s : TensorShape, ∀ j, j < s.strides.length →
      ((extAt s j = 1 → strAt (withBroadcastStrides s) j = 0) ∧
       (1 < extAt s j →
         strAt (withBroadcastStrides s) j = strAt s j))) := by
  have hopk : op.getD k 0 = opDimsAt shapes k := by
    rw [hop]; exact opDimsList_getD _ _ _ hk
  have hBle : m ≤ op.getD k 0 := by
    rw [hopk, ← hBm]; exact extAt_le_opDimsAt hB k
  have hBMatch : Matches (extAt B k) (op.getD k 0) = true :=
    (checkCompat_eq_none_iff shapes op rank).1 hcompat k hk B hB
  have hopm : op.getD k 0 = m := by
    rw [hBm] at hBMatch
    simp only [Matches, Bool.or_eq_true, beq_iff_eq] at hBMatch
    rcases hBMatch with h1 | h1 | h1 <;> omega
  refine ⟨hopm, ?_, ?_⟩
  · by_cases hlen : k < A.strides.length
    · rw [withBroadcastStrides_strAt A k hlen, hA1]
      simp
    · simp only [strAt, withBroadcastStrides]
      rw [List.getD_eq_default]
      simpa using hlen
  · intro s j hj
    constructor
    · intro h1
      rw [withBroadcastStrides_strAt s j hj, h1]
      simp
    · intro h1
      rw [withBroadcastStrides_strAt s j hj]
      have : (extAt s j == 1) = false := by
        rw [beq_eq_false_iff_ne]
        omega
      rw [this]
      simp

/-- Witness for C6: the padded self-test shapes — the first input has extent
1 at axis 0 where the second has 13; the operation extent there is 13 and the
first input's derived stride at axis 0 is 0. -/
theorem broadcast_stride_assignment_witness :
    (opDimsList (paddedShapes [ofDims testS1, ofDims testS2, ofDims testS3])
          3).getD 0 0 = 13 ∧
    strAt (withBroadcastStrides
      (pad (ofDims testS1) (commonRank
        [ofDims testS1, ofDims testS2, ofDims testS3]))) 0 = 0 ∧
    (∀ s : TensorShape, ∀ j, j < s.strides.length →
      ((extAt s j = 1 → strAt (withBroadcastStrides s) j = 0) ∧
       (1 < extAt s j →
         strAt (withBroadcastStrides s) j = strAt s j))) :=
  broadcast_stride_assignment
    (paddedShapes [ofDims testS1, ofDims testS2, ofDims testS3])
    (opDimsList (paddedShapes [ofDims testS1, ofDims testS2, ofDims testS3]) 3)
    3 0 13
    (pad (ofDims testS1) (commonRank [ofDims testS1, ofDims testS2, ofDims testS3]))
    (pad (ofDims testS2) (commonRank [ofDims testS1, ofDims testS2, ofDims testS3]))
    (by decide) (by decide) rfl (by decide) (by decide) (by decide) (by decide)
    (by decide)

end CNTK

namespace CNTK

/-! ### Permutation invariance of the aligner (C8) -/

theorem perm_foldl_max {α : Type} (g : α → Nat) {l1 l2 : List α}
    (h : l1.Perm l2) (b : Nat) :
    l1.foldl (fun m x => max m (g x)) b
      = l2.foldl (fun m x => max m (g x)) b := by
  induction h generalizing b with
  | nil => rfl
  | cons x _ ih => simp only [List.foldl_cons]; exact ih _
  | swap x y l =>
    simp only [List.foldl_cons]
    have : max (max b (g y)) (g x) = max (max b (g x)) (g y) := by
      omega
    rw [this]
  | trans _ _ ih1 ih2 => exact (ih1 b).trans (ih2 b)

theorem perm_all {α : Type} (p : α → Bool) {l1 l2 : List α}
    (h : l1.Perm l2) : l1.all p = l2.all p := by
  by_cases hall : l1.all p = true
  · rw [hall]
    symm
    rw [List.all_eq_true] at hall ⊢
    exact fun x hx => hall x (h.mem_iff.2 hx)
  · have h2 : ¬ l2.all p = true := by
      rw [List.all_eq_true] at hall ⊢
      intro hc
      exact hall fun x hx => hc x (h.mem_iff.1 hx)
    simp only [Bool.not_eq_true] at hall h2
    rw [hall, h2]

theorem commonRank_perm {l1 l2 : List TensorShape} (h : l1.Perm l2) :
    commonRank l1 = commonRank l2 := by
  unfold commonRank
  exact perm_foldl_max (fun s => s.dims.length) h 0

theorem opDimsAt_perm {l1 l2 : List TensorShape} (h : l1.Perm l2) (k : Nat) :
    opDimsAt l1 k = opDimsAt l2 k := by
  unfold opDimsAt
  exact perm_foldl_max (fun s => extAt s k) h 0

theorem paddedShapes_perm {l1 l2 : List TensorShape} (h : l1.Perm l2) :
    (paddedShapes l1).Perm (paddedShapes l2) := by
  unfold paddedShapes
  rw [commonRank_perm h]
  exact h.map _

theorem opList_perm {l1 l2 : List TensorShape} (h : l1.Perm l2) :
    opList l1 = opList l2 := by
  unfold opList opDimsList
  rw [commonRank_perm h]
  exact List.map_congr_left fun k _ => opDimsAt_perm (paddedShapes_perm h) k

theorem canMergeAll_perm {l1 l2 : List TensorShape} (h : l1.Perm l2)
    (op : List Nat) (k : Nat) :
    canMergeAll l1 op k = canMergeAll l2 op k :=
  perm_all _ h

theorem flattenFold_perm (ks : List Nat) :
    ∀ (l1 l2 : List TensorShape) (op : List Nat), l1.Perm l2 →
      ((ks.foldl flattenStep (l1, op)).1.Perm
          ((ks.foldl flattenStep (l2, op)).1)
        ∧ (ks.foldl flattenStep (l1, op)).2
          = (ks.foldl flattenStep (l2, op)).2) := by
  induction ks with
  | nil => exact fun l1 l2 op h => ⟨h, rfl⟩
  | cons k ks ih =>
    intro l1 l2 op h
    by_cases hc : canMergeAll l1 op k = true
    · have hc2 : canMergeAll l2 op k = true := by
        rw [← canMergeAll_perm h]; exact hc
      simp only [List.foldl_cons, flattenStep, hc, hc2, if_pos]
      exact ih _ _ _ (h.map _)
    · have hc2 : ¬ canMergeAll l2 op k = true := by
        rw [← canMergeAll_perm h]; exact hc
      simp only [List.foldl_cons, flattenStep, hc, hc2, if_neg, if_false]
      exact ih _ _ _ h

theorem flattenedStage_perm {l1 l2 : List TensorShape} (h : l1.Perm l2) :
    (flattenedStage l1).1.Perm ((flattenedStage l2).1)
      ∧ (flattenedStage l1).2 = (flattenedStage l2).2 := by
  unfold flattenedStage flattenAll
  rw [commonRank_perm h, opList_perm h]
  exact flattenFold_perm _ _ _ _ (paddedShapes_perm h)

theorem toDropMask_perm {l1 l2 : List TensorShape} (h : l1.Perm l2)
    (rank : Nat) : toDropMask l1 rank = toDropMask l2 rank := by
  unfold toDropMask
  exact List.map_congr_left fun k _ => perm_all _ h

theorem alignedOpDims_perm {l1 l2 : List TensorShape} (h : l1.Perm l2) :
    alignedOpDims l1 = alignedOpDims l2 := by
  obtain ⟨hfl1, hfl2⟩ := flattenedStage_perm h
  unfold alignedOpDims
  rw [hfl2, toDropMask_perm hfl1, commonRank_perm h]

/-- C8: for participants that pass the compatibility check, the final aligned
operation shape produced by the whole pipeline (pad, opDims, flatten,
singleton drop) is invariant under any reordering of the participants, and
both orders succeed; each participant's final shape is the broadcast-stride
map of its own aligned shape, independent of the order. -/
theorem align_perm_invariant (l1 l2 : List TensorShape) (hperm : l1.Perm l2)
    (hok : checkCompat (paddedShapes l1) (opList l1) (commonRank l1) = none) :
    alignedOpDims l1 = alignedOpDims l2 ∧
    align l1 = .ok ⟨(alignedShapes l1).map withBroadcastStrides,
                    alignedOpDims l1⟩ ∧
    align l2 = .ok ⟨(alignedShapes l2).map withBroadcastStrides,
                    alignedOpDims l2⟩ := by
  have hok2 : checkCompat (paddedShapes l2) (opList l2) (commonRank l2)
      = none := by
    rw [checkCompat_eq_none_iff] at hok ⊢
    rw [← commonRank_perm hperm, ← opList_perm hperm]
    intro k hk s hs
    exact hok k hk s ((paddedShapes_perm hperm).mem_iff.2 hs)
  refine ⟨alignedOpDims_perm hperm, ?_, ?_⟩
  · unfold align
    rw [hok]
  · unfold align
    rw [hok2]

/-- Witness for C8: swapping the two inputs of the self-test leaves the final
aligned operation shape unchanged. -/
theorem align_perm_invariant_witness :
    alignedOpDims [ofDims testS1, ofDims testS2, ofDims testS3]
      = alignedOpDims [ofDims testS2, ofDims testS1, ofDims testS3] :=
  (align_perm_invariant [ofDims testS1, ofDims testS2, ofDims testS3]
    [ofDims testS2, ofDims testS1, ofDims testS3]
    (List.Perm.swap (ofDims testS2) (ofDims testS1) [ofDims testS3])
    (by decide)).1

end CNTK
